import Mathlib

/-!
Shallow embedding of `arbitragelab/time_series_approach/ou_optimal_threshold_Bertram.py`
(class `OUModelOptimalThresholdBertram`).  Floating-point arithmetic is modelled by
real arithmetic; the external special functions (`scipy.special.erfi`, `mpmath.gamma`,
`mpmath.digamma`) are modelled by their standard mathematical definitions; the infinite
sums computed with `mpmath.nsum(f, [1, inf])` are modelled by `tsum` over the shifted
index.  The external scipy solvers (`optimize.fsolve`, `optimize.minimize`) are passed
in as functional parameters, mirroring that the code delegates to them and uses their
output unconditionally.
-/

namespace ArbitrageLab

/-- The imaginary error function, `erfi x = (2 / sqrt pi) * integral of exp (t^2) from 0 to x`.
Models `scipy.special.erfi` (spec glossary: erfi is the imaginary error function). -/
noncomputable def erfi (x : ℝ) : ℝ :=
  (2 / Real.sqrt Real.pi) * ∫ t in (0:ℝ)..x, Real.exp (t ^ 2)

/-- The digamma function, modelled as the derivative of `log ∘ Gamma`
(spec glossary: the logarithmic derivative of the gamma function).
Models `mpmath.digamma`. -/
noncomputable def digamma (x : ℝ) : ℝ :=
  deriv (fun y => Real.log (Real.Gamma y)) x

/-- The parameter holder of the model: the three OU parameters stored on the instance
(`self.mu`, `self.theta`, `self.sigma`, set on the base class). -/
structure OUModelOptimalThresholdBertram where
  mu : ℝ
  theta : ℝ
  sigma : ℝ

/-- `_erfi_scaler(const)`: `special.erfi((const - self.theta) * np.sqrt(self.mu) / self.sigma)`. -/
noncomputable def erfi_scaler (s : OUModelOptimalThresholdBertram) (const : ℝ) : ℝ :=
  erfi ((const - s.theta) * Real.sqrt s.mu / s.sigma)

/-- `expected_trade_length(a, m)`:
`(np.pi / self.mu) * (self._erfi_scaler(m) - self._erfi_scaler(a))`. -/
noncomputable def expected_trade_length (s : OUModelOptimalThresholdBertram) (a m : ℝ) : ℝ :=
  (Real.pi / s.mu) * (erfi_scaler s m - erfi_scaler s a)

/-- The `common_term` lambda inside `_w1`:
`gamma(k / 2) * ((1.414 * const) ** k) / fac(k)` (with real division `k / 2`). -/
noncomputable def common_term (const : ℝ) (k : ℕ) : ℝ :=
  Real.Gamma ((k : ℝ) / 2) * (1.414 * const) ^ k / (Nat.factorial k)

/-- `_w1(const)`: `term_1 - term_2` where `term_1 = (nsum(common_term, [1, inf]) / 2) ** 2`
and `term_2 = (nsum(lambda k: common_term(k) * ((-1) ** k), [1, inf]) / 2) ** 2`.
The sum over `k = 1, 2, ...` is modelled by a `tsum` over the shifted index `j + 1`. -/
noncomputable def w1 (const : ℝ) : ℝ :=
  (tsum (fun j : ℕ => common_term const (j + 1)) / 2) ^ 2
    - (tsum (fun j : ℕ => common_term const (j + 1) * (-1 : ℝ) ^ (j + 1)) / 2) ^ 2

/-- The `middle_term` lambda inside `_w2`:
`(digamma((2*k - 1) / 2) - digamma(1)) * gamma((2*k - 1) / 2) * ((1.414*const) ** (2*k - 1)) / fac(2*k - 1)`. -/
noncomputable def middle_term (const : ℝ) (k : ℕ) : ℝ :=
  (digamma ((2 * (k : ℝ) - 1) / 2) - digamma 1) * Real.Gamma ((2 * (k : ℝ) - 1) / 2)
    * (1.414 * const) ^ (2 * k - 1) / (Nat.factorial (2 * k - 1))

/-- `_w2(const)`: `nsum(middle_term, [1, inf])`, modelled by a `tsum` over the shifted index. -/
noncomputable def w2 (const : ℝ) : ℝ :=
  tsum (fun j : ℕ => middle_term const (j + 1))

/-- `trade_length_variance(a, m)`: evaluates `_w1` and `_w2` at
`const_1 = (m - theta) * sqrt(2 mu) / sigma` and `const_2 = (a - theta) * sqrt(2 mu) / sigma`,
returning `(w1(const_1) - w1(const_2) - w2(const_1) + w2(const_2)) / mu ** 2`. -/
noncomputable def trade_length_variance (s : OUModelOptimalThresholdBertram) (a m : ℝ) : ℝ :=
  let const_1 := (m - s.theta) * Real.sqrt (2 * s.mu) / s.sigma
  let const_2 := (a - s.theta) * Real.sqrt (2 * s.mu) / s.sigma
  (w1 const_1 - w1 const_2 - w2 const_1 + w2 const_2) / s.mu ^ 2

/-- `expected_return(a, m, c)`: `(m - a - c) / self.expected_trade_length(a, m)`. -/
noncomputable def expected_return (s : OUModelOptimalThresholdBertram) (a m c : ℝ) : ℝ :=
  (m - a - c) / expected_trade_length s a m

/-- `return_variance(a, m, c)`:
`(m - a - c) ** 2 * self.trade_length_variance(a, m) / self.expected_trade_length(a, m) ** 3`. -/
noncomputable def return_variance (s : OUModelOptimalThresholdBertram) (a m c : ℝ) : ℝ :=
  (m - a - c) ^ 2 * trade_length_variance s a m / (expected_trade_length s a m) ^ 3

/-- `sharpe_ratio(a, m, c, rf)`: with `r = rf / self.expected_trade_length(a, m)`, returns
`(self.expected_return(a, m, c) - r) / np.sqrt(self.return_variance(a, m, c))`. -/
noncomputable def sharpe_ratio (s : OUModelOptimalThresholdBertram) (a m c rf : ℝ) : ℝ :=
  (expected_return s a m c - rf / expected_trade_length s a m)
    / Real.sqrt (return_variance s a m c)

/-- The lambda `equation` built in `get_threshold_by_maximize_expected_return`
(equation (13) of the Bertram paper):
`np.exp(mu * (a - theta)**2 / sigma**2) * (2*(a - theta) + c) - sigma * np.sqrt(pi/mu) * _erfi_scaler(a)`. -/
noncomputable def equation_13 (s : OUModelOptimalThresholdBertram) (c : ℝ) (a : ℝ) : ℝ :=
  Real.exp (s.mu * (a - s.theta) ^ 2 / s.sigma ^ 2) * (2 * (a - s.theta) + c)
    - s.sigma * Real.sqrt (Real.pi / s.mu) * erfi_scaler s a

/-- Output of an external scipy solver call (`optimize.fsolve` / `optimize.minimize`):
the solution value it reports (`x`) together with its convergence status
(`ier == 1` resp. `OptimizeResult.success`).  The source code never inspects the status. -/
structure SolverResult where
  x : ℝ
  success : Bool

/-- `get_threshold_by_maximize_expected_return(c)`: calls the external root finder on
`equation` from `initial_guess = theta - c - 1e-2`, takes the reported solution
unconditionally (`optimize.fsolve(equation, initial_guess)[0]`), and returns
`(root, 2 * theta - root)`.  The solver is a functional parameter. -/
noncomputable def get_threshold_by_maximize_expected_return
    (fsolve : (ℝ → ℝ) → ℝ → SolverResult)
    (s : OUModelOptimalThresholdBertram) (c : ℝ) : ℝ × ℝ :=
  let root := (fsolve (equation_13 s c) (s.theta - c - 1e-2)).x
  (root, 2 * s.theta - root)

/-- `get_threshold_by_maximize_sharpe_ratio(c, rf)`: minimizes
`negative_sharpe_ratio = lambda a: -1 * self.sharpe_ratio(a, 2*theta - a, c, rf)` from
`initial_guess = theta - rf - c` with the external minimizer, takes `.x[0]` of the result
unconditionally, and returns `(sol, 2 * theta - sol)`. -/
noncomputable def get_threshold_by_maximize_sharpe_ratio
    (minimize : (ℝ → ℝ) → ℝ → SolverResult)
    (s : OUModelOptimalThresholdBertram) (c rf : ℝ) : ℝ × ℝ :=
  let sol := (minimize (fun a => -1 * sharpe_ratio s a (2 * s.theta - a) c rf)
    (s.theta - rf - c)).x
  (sol, 2 * s.theta - sol)

lemma exp_sq_intervalIntegrable (a b : ℝ) :
    IntervalIntegrable (fun t : ℝ => Real.exp (t ^ 2)) MeasureTheory.volume a b :=
  (Real.continuous_exp.comp (continuous_pow 2)).intervalIntegrable a b

lemma erfi_neg (x : ℝ) : erfi (-x) = - erfi x := by
  unfold erfi
  have hcomp := intervalIntegral.integral_comp_neg (f := fun t : ℝ => Real.exp (t ^ 2))
    (a := (0:ℝ)) (b := x)
  have heven : (∫ t in (0:ℝ)..x, Real.exp ((-t) ^ 2)) = ∫ t in (0:ℝ)..x, Real.exp (t ^ 2) := by
    apply intervalIntegral.integral_congr
    intro t _
    simp [neg_sq]
  have hsymm : (∫ t in (0:ℝ)..(-x), Real.exp (t ^ 2))
      = - ∫ t in (-x)..(0:ℝ), Real.exp (t ^ 2) := by
    rw [intervalIntegral.integral_symm]
  rw [hsymm]
  rw [neg_zero] at hcomp
  rw [heven] at hcomp
  rw [← hcomp]
  ring

lemma erfi_strictMono : StrictMono erfi := by
  intro x y hxy
  unfold erfi
  have hadd : (∫ t in (0:ℝ)..x, Real.exp (t ^ 2)) + (∫ t in x..y, Real.exp (t ^ 2))
      = ∫ t in (0:ℝ)..y, Real.exp (t ^ 2) :=
    intervalIntegral.integral_add_adjacent_intervals
      (exp_sq_intervalIntegrable 0 x) (exp_sq_intervalIntegrable x y)
  have hpos : 0 < ∫ t in x..y, Real.exp (t ^ 2) :=
    intervalIntegral.intervalIntegral_pos_of_pos (exp_sq_intervalIntegrable x y)
      (fun t => Real.exp_pos _) hxy
  have hfac : 0 < 2 / Real.sqrt Real.pi :=
    div_pos two_pos (Real.sqrt_pos.mpr Real.pi_pos)
  apply mul_lt_mul_of_pos_left _ hfac
  linarith

/-- C1: `expected_trade_length(a, m)` returns `(pi/mu) * (scaled_erfi(m) - scaled_erfi(a))`
with `scaled_erfi(x) = erfi((x - theta) * sqrt(mu) / sigma)`; with `mu = 1`, `theta = 0`,
`sigma = 1`, `a = -1`, `m = 1` the result equals `pi * (erfi 1 - erfi (-1)) = 2 * pi * erfi 1`. -/
theorem C1_expected_trade_length_formula :
    (∀ (s : OUModelOptimalThresholdBertram) (a m : ℝ),
      expected_trade_length s a m
        = (Real.pi / s.mu) * (erfi ((m - s.theta) * Real.sqrt s.mu / s.sigma)
            - erfi ((a - s.theta) * Real.sqrt s.mu / s.sigma)))
    ∧ expected_trade_length ⟨1, 0, 1⟩ (-1) 1 = Real.pi * (erfi 1 - erfi (-1))
    ∧ expected_trade_length ⟨1, 0, 1⟩ (-1) 1 = 2 * Real.pi * erfi 1 := by
  refine ⟨fun s a m => rfl, ?_, ?_⟩
  · show (Real.pi / 1) * (erfi ((1 - 0) * Real.sqrt 1 / 1) - erfi ((-1 - 0) * Real.sqrt 1 / 1))
      = Real.pi * (erfi 1 - erfi (-1))
    rw [Real.sqrt_one]
    norm_num
  · show (Real.pi / 1) * (erfi ((1 - 0) * Real.sqrt 1 / 1) - erfi ((-1 - 0) * Real.sqrt 1 / 1))
      = 2 * Real.pi * erfi 1
    rw [Real.sqrt_one]
    norm_num
    rw [show (-1 : ℝ) = -(1 : ℝ) by norm_num, erfi_neg]
    ring

/-- C4: `expected_return(a, m, c)` returns `(m - a - c) / expected_trade_length(a, m)`;
with `mu = 1`, `theta = 0`, `sigma = 1`, `a = -1`, `m = 1`, `c = 0.1` it equals
`(1 - (-1) - 0.1) / expected_trade_length(-1, 1)`. -/
theorem C4_expected_return_formula :
    (∀ (s : OUModelOptimalThresholdBertram) (a m c : ℝ),
      expected_return s a m c = (m - a - c) / expected_trade_length s a m)
    ∧ expected_return ⟨1, 0, 1⟩ (-1) 1 0.1
        = (1 - (-1) - 0.1) / expected_trade_length ⟨1, 0, 1⟩ (-1) 1 := by
  exact ⟨fun s a m c => rfl, rfl⟩

/-- C5: `sharpe_ratio(a, m, c, rf)` returns
`(expected_return(a, m, c) - rf / expected_trade_length(a, m)) / sqrt(return_variance(a, m, c))`,
and `return_variance(a, m, c)` is
`(m - a - c)^2 * trade_length_variance(a, m) / expected_trade_length(a, m)^3`. -/
theorem C5_sharpe_ratio_formula :
    ∀ (s : OUModelOptimalThresholdBertram) (a m c rf : ℝ),
      sharpe_ratio s a m c rf
        = (expected_return s a m c - rf / expected_trade_length s a m)
            / Real.sqrt (return_variance s a m c)
      ∧ return_variance s a m c
        = (m - a - c) ^ 2 * trade_length_variance s a m / (expected_trade_length s a m) ^ 3 :=
  fun _ _ _ _ _ => ⟨rfl, rfl⟩

/-- C10: `expected_trade_length` is antisymmetric in its two thresholds, and at `a = m`
it returns the value `0` (the function is total: no error is signalled). -/
theorem C10_expected_trade_length_antisymm :
    ∀ (s : OUModelOptimalThresholdBertram) (a m : ℝ),
      expected_trade_length s m a = - expected_trade_length s a m
      ∧ expected_trade_length s a a = 0 := by
  intro s a m
  constructor
  · unfold expected_trade_length
    ring
  · unfold expected_trade_length
    ring

/-- C9: with `mu > 0`, `sigma > 0` and `a < m`, `expected_trade_length(a, m)` is
strictly positive. -/
theorem C9_expected_trade_length_pos (s : OUModelOptimalThresholdBertram) (a m : ℝ)
    (hmu : 0 < s.mu) (hsigma : 0 < s.sigma) (ham : a < m) :
    0 < expected_trade_length s a m := by
  have hsq : 0 < Real.sqrt s.mu := Real.sqrt_pos.mpr hmu
  have hsub : a - s.theta < m - s.theta := by linarith
  have hscale : (a - s.theta) * Real.sqrt s.mu / s.sigma
      < (m - s.theta) * Real.sqrt s.mu / s.sigma := by
    gcongr
  have hlt : erfi_scaler s a < erfi_scaler s m := by
    unfold erfi_scaler
    exact erfi_strictMono hscale
  have hpi : 0 < Real.pi / s.mu := div_pos Real.pi_pos hmu
  unfold expected_trade_length
  exact mul_pos hpi (by linarith)

/-- Witness for C9 at `mu = 1`, `theta = 0`, `sigma = 1`, `a = 0`, `m = 1`. -/
theorem C9_expected_trade_length_pos_witness :
    0 < expected_trade_length ⟨1, 0, 1⟩ 0 1 :=
  C9_expected_trade_length_pos ⟨1, 0, 1⟩ 0 1 one_pos one_pos one_pos

/-- C2: `trade_length_variance(a, m)` combines `W1` and `W2` evaluated only at the two
normalized thresholds `(m - theta) * sqrt(2 mu) / sigma` and `(a - theta) * sqrt(2 mu) / sigma`,
the combination divided by `mu^2`; and `W2(x)` is the sum over `k >= 1` (index `j + 1`) of
`(digamma((2k-1)/2) - digamma(1)) * Gamma((2k-1)/2) * (1.414 x)^(2k-1) / (2k-1)!`. -/
theorem C2_trade_length_variance_formula :
    (∀ (s : OUModelOptimalThresholdBertram) (a m : ℝ),
      trade_length_variance s a m
        = (w1 ((m - s.theta) * Real.sqrt (2 * s.mu) / s.sigma)
            - w1 ((a - s.theta) * Real.sqrt (2 * s.mu) / s.sigma)
            - w2 ((m - s.theta) * Real.sqrt (2 * s.mu) / s.sigma)
            + w2 ((a - s.theta) * Real.sqrt (2 * s.mu) / s.sigma)) / s.mu ^ 2)
    ∧ ∀ x : ℝ, w2 x
        = tsum (fun j : ℕ =>
            (digamma ((2 * ((j : ℝ) + 1) - 1) / 2) - digamma 1)
              * Real.Gamma ((2 * ((j : ℝ) + 1) - 1) / 2)
              * (1.414 * x) ^ (2 * (j + 1) - 1) / (Nat.factorial (2 * (j + 1) - 1))) := by
  constructor
  · intro s a m
    rfl
  · intro x
    unfold w2
    apply tsum_congr
    intro j
    unfold middle_term
    push_cast
    ring

/-- C3: `W1(x)` equals the difference of the squares of the two halved series
`sum_{k >= 1} Gamma(k/2) * (1.414 x)^k / k!` (index `j + 1`), the second with
alternating sign `(-1)^k`, each sum halved before being squared. -/
theorem C3_w1_formula :
    ∀ x : ℝ, w1 x
      = (tsum (fun j : ℕ => Real.Gamma (((j : ℝ) + 1) / 2) * (1.414 * x) ^ (j + 1)
          / (Nat.factorial (j + 1))) / 2) ^ 2
        - (tsum (fun j : ℕ => Real.Gamma (((j : ℝ) + 1) / 2) * (1.414 * x) ^ (j + 1)
            / (Nat.factorial (j + 1)) * (-1 : ℝ) ^ (j + 1)) / 2) ^ 2 := by
  intro x
  have h1 : (fun j : ℕ => common_term x (j + 1))
      = fun j : ℕ => Real.Gamma (((j : ℝ) + 1) / 2) * (1.414 * x) ^ (j + 1)
          / (Nat.factorial (j + 1)) := by
    funext j
    unfold common_term
    push_cast
    ring
  have h2 : (fun j : ℕ => common_term x (j + 1) * (-1 : ℝ) ^ (j + 1))
      = fun j : ℕ => Real.Gamma (((j : ℝ) + 1) / 2) * (1.414 * x) ^ (j + 1)
          / (Nat.factorial (j + 1)) * (-1 : ℝ) ^ (j + 1) := by
    funext j
    unfold common_term
    push_cast
    ring
  unfold w1
  rw [h1, h2]

/-- C6: the return-maximizing optimizer hands the external root finder exactly the
first-order condition of equation (13), started from `theta - c - 0.01`, and returns
`(root, 2 * theta - root)`, so the returned pair sums to `2 * theta` exactly (hence
within the tolerance `1e-6`). -/
theorem C6_maximize_expected_return_symmetry :
    ∀ (fsolve : (ℝ → ℝ) → ℝ → SolverResult)
      (s : OUModelOptimalThresholdBertram) (c : ℝ),
      (∀ a : ℝ, equation_13 s c a
        = Real.exp (s.mu * (a - s.theta) ^ 2 / s.sigma ^ 2) * (2 * (a - s.theta) + c)
            - s.sigma * Real.sqrt (Real.pi / s.mu)
                * erfi ((a - s.theta) * Real.sqrt s.mu / s.sigma))
      ∧ get_threshold_by_maximize_expected_return fsolve s c
          = ((fsolve (equation_13 s c) (s.theta - c - 1e-2)).x,
             2 * s.theta - (fsolve (equation_13 s c) (s.theta - c - 1e-2)).x)
      ∧ (get_threshold_by_maximize_expected_return fsolve s c).1
          + (get_threshold_by_maximize_expected_return fsolve s c).2 = 2 * s.theta
      ∧ |(get_threshold_by_maximize_expected_return fsolve s c).1
          + (get_threshold_by_maximize_expected_return fsolve s c).2 - 2 * s.theta|
          ≤ 1e-6 := by
  intro fsolve s c
  have hpair : get_threshold_by_maximize_expected_return fsolve s c
      = ((fsolve (equation_13 s c) (s.theta - c - 1e-2)).x,
         2 * s.theta - (fsolve (equation_13 s c) (s.theta - c - 1e-2)).x) := rfl
  have hsum : (get_threshold_by_maximize_expected_return fsolve s c).1
      + (get_threshold_by_maximize_expected_return fsolve s c).2 = 2 * s.theta := by
    rw [hpair]
    show (fsolve (equation_13 s c) (s.theta - c - 1e-2)).x
        + (2 * s.theta - (fsolve (equation_13 s c) (s.theta - c - 1e-2)).x) = 2 * s.theta
    ring
  refine ⟨fun a => rfl, hpair, hsum, ?_⟩
  rw [hsum, sub_self, abs_zero]
  norm_num

/-- C7 counterexample: with valid parameters `mu = 1 > 0`, `sigma = 1 > 0` and the
boundary input `a = m = 1`, `expected_trade_length` returns the ordinary value `0`;
no guard rejects the input (the module defines no `DomainError` and contains no
validation or raise statement). -/
theorem C7_domain_error_counterexample :
    expected_trade_length ⟨1, 0, 1⟩ 1 1 = 0 := by
  unfold expected_trade_length
  ring

/-- C7 amended: no parameter validation is performed; at `a = m` the function
`expected_trade_length` silently returns `0` for every parameter set. -/
theorem C7_no_validation :
    ∀ (s : OUModelOptimalThresholdBertram) (a : ℝ), expected_trade_length s a a = 0 := by
  intro s a
  unfold expected_trade_length
  ring

/-- C8 counterexample: with a solver reporting non-convergence (`success = false`,
last iterate equal to the initial guess), both optimizers still return an ordinary
threshold pair instead of signalling an error. -/
theorem C8_convergence_error_counterexample :
    get_threshold_by_maximize_expected_return (fun _ x0 => ⟨x0, false⟩) ⟨1, 0, 1⟩ 1
      = (-1.01, 1.01)
    ∧ get_threshold_by_maximize_sharpe_ratio (fun _ x0 => ⟨x0, false⟩) ⟨1, 0, 1⟩ 0 0
      = (0, 0) := by
  constructor
  · unfold get_threshold_by_maximize_expected_return
    norm_num [Prod.ext_iff]
  · unfold get_threshold_by_maximize_sharpe_ratio
    norm_num [Prod.ext_iff]

/-- C8 amended: the optimizers build their result from the solution value the external
solver reports, unconditionally: the convergence status is never consulted and no
`ConvergenceError` exists in the module. -/
theorem C8_solver_result_unconditional :
    ∀ (fsolve minimize : (ℝ → ℝ) → ℝ → SolverResult)
      (s : OUModelOptimalThresholdBertram) (c rf : ℝ),
      get_threshold_by_maximize_expected_return fsolve s c
        = ((fsolve (equation_13 s c) (s.theta - c - 1e-2)).x,
           2 * s.theta - (fsolve (equation_13 s c) (s.theta - c - 1e-2)).x)
      ∧ get_threshold_by_maximize_sharpe_ratio minimize s c rf
        = ((minimize (fun a => -1 * sharpe_ratio s a (2 * s.theta - a) c rf)
              (s.theta - rf - c)).x,
           2 * s.theta - (minimize (fun a => -1 * sharpe_ratio s a (2 * s.theta - a) c rf)
              (s.theta - rf - c)).x) :=
  fun _ _ _ _ _ => ⟨rfl, rfl⟩

end ArbitrageLab
